import Mathlib

/-!
# FarmTrack local persistence layer — shallow embedding

This file embeds the persistence layer of the FarmTrack application:

* the `DatabaseProvider` context (`addWithTimestamps`, `updateWithTimestamps`,
  `addSale`, `updateSale`, `exportData`, `importData`) from the provider module;
* the schema configuration passed to `initializeDatabase` (object stores,
  key paths, indices);
* the flat `localStorage` fallback (`storage.get` / `storage.set`) and the
  `readValue` path of the `useLocalStorage` hook.

JavaScript records are modelled as association lists of string keys and
values, observed through `getField`, where the *last* binding of a key wins.
This matches object-spread semantics: the spread `\x7b...a, ...b\x7d` is embedded as
the concatenation `a ++ b`, and a property assignment as appending the new
binding.  JavaScript numbers are modelled as integers, which suffices for
the derived-field algebra the claims quantify over (`total = quantity *
pricePerUnit` is the same exact multiplication the code performs and stores).

The behaviour of the IndexedDB engine itself (key generation, key-collision
and unique-index rejection with `ConstraintError`) is host-platform behaviour,
not repository code; those parts are modelled from the spec, as noted on the
individual definitions.
-/

namespace FarmTrack

/-- A JavaScript value as stored in a record field: a number (modelled as an
integer), a string, or the result `NaN` of a non-numeric multiplication. -/
inductive Value where
  | num (q : ℤ)
  | str (s : String)
  | nan
deriving DecidableEq, Repr

/-- A JavaScript object: an association list of field bindings.  Later
bindings shadow earlier ones, matching object spread. -/
abbrev Obj := List (String × Value)

/-- Decidable equality of operation results, so that witness runs can be
checked by evaluation. -/
instance {ε α : Type} [DecidableEq ε] [DecidableEq α] :
    DecidableEq (Except ε α) := fun x y =>
  match x, y with
  | .ok a, .ok b =>
      if h : a = b then .isTrue (by rw [h])
      else .isFalse (by intro hh; cases hh; exact h rfl)
  | .error e, .error f =>
      if h : e = f then .isTrue (by rw [h])
      else .isFalse (by intro hh; cases hh; exact h rfl)
  | .ok _, .error _ => .isFalse (by intro hh; cases hh)
  | .error _, .ok _ => .isFalse (by intro hh; cases hh)

/-- Left-biased choice on optional values; also the embedding of the
JavaScript nullish-coalescing operator on possibly-undefined fields. -/
def orOpt (a b : Option Value) : Option Value :=
  match a with
  | some v => some v
  | none => b

/-- Reads field `k` of object `o`; the last binding wins, so that
concatenation embeds object spread. -/
def getField : Obj → String → Option Value
  | [], _ => none
  | p :: rest, k => orOpt (getField rest k) (if p.1 = k then some p.2 else none)

/-- Whether object `o` has a (non-undefined) binding for `k`; the embedding
of the JavaScript test `o.k !== undefined`. -/
def hasField (o : Obj) (k : String) : Bool :=
  (getField o k).isSome

theorem orOpt_none_right (a : Option Value) : orOpt a none = a := by
  cases a <;> rfl

theorem not_hasField {o : Obj} {k : String} (h : hasField o k = false) :
    getField o k = none := by
  cases hx : getField o k with
  | none => rfl
  | some v => rw [hasField, hx] at h; cases h

theorem orOpt_assoc (a b c : Option Value) :
    orOpt (orOpt a b) c = orOpt a (orOpt b c) := by
  cases a <;> rfl

theorem getField_append (a b : Obj) (k : String) :
    getField (a ++ b) k = orOpt (getField b k) (getField a k) := by
  induction a with
  | nil => simp [getField, orOpt_none_right]
  | cons p rest ih =>
      simp only [List.cons_append, getField, List.append_eq, ih, orOpt_assoc]

theorem getField_singleton (k' : String) (v : Value) (k : String) :
    getField [(k', v)] k = if k' = k then some v else none := by
  simp [getField, orOpt]

/-! ## Schema configuration

Transliterated from the `initializeDatabase` call in the `DatabaseProvider`:
five object stores, all with key path `id` and auto-increment keys, each with
its declared indices.  The provider writes `unique: true` at the top level of
the inventory `name` entry, but the hook's config type keeps index options
under a separate `options` field and `initDB` forwards only
`indexConfig.options` to `createIndex`; that field is absent on every
provider entry, so every index is created with the engine's defaults
(non-unique). -/

/-- A secondary index as actually created on a store: the arguments
`createIndex` received, with the `unique` option resolved (its WebIDL
default is `false`). -/
structure IndexCfg where
  name : String
  keyPath : String
  unique : Bool
deriving DecidableEq, Repr

/-- One entry of the provider's `indices` arrays, as literally written in
`initializeDatabase`.  The `unique` flag sits at the top level of the entry;
the `options` field — the only part `initDB` forwards to `createIndex` — is
the hook's `options?: IDBIndexParameters` and is absent (`none`) on every
provider entry. -/
structure ProviderIndexEntry where
  name : String
  keyPath : String
  unique : Bool
  options : Option Bool
deriving DecidableEq, Repr

/-- The five object-store names of `FarmDB`. -/
inductive StoreName where
  | activities
  | inventory
  | sales
  | expenses
  | labour
deriving DecidableEq, Repr

/-- The string name of a store, as used for export/import document keys. -/
def storeNameStr : StoreName → String
  | .activities => "activities"
  | .inventory => "inventory"
  | .sales => "sales"
  | .expenses => "expenses"
  | .labour => "labour"

/-- `db.objectStoreNames` of `FarmDB`, in declaration order. -/
def allStoreNames : List StoreName :=
  [.activities, .inventory, .sales, .expenses, .labour]

/-- The index entries of each store, transliterated from the
`initializeDatabase` configuration: only the inventory `name` entry carries
a top-level `unique: true`; no entry has an `options` object. -/
def providerIndices : StoreName → List ProviderIndexEntry
  | .activities =>
      [⟨"date", "date", false, none⟩,
       ⟨"activityType", "activityType", false, none⟩,
       ⟨"crop", "crop", false, none⟩]
  | .inventory =>
      [⟨"name", "name", true, none⟩, ⟨"category", "category", false, none⟩]
  | .sales =>
      [⟨"date", "date", false, none⟩, ⟨"product", "product", false, none⟩,
       ⟨"customer", "customer", false, none⟩]
  | .expenses =>
      [⟨"date", "date", false, none⟩, ⟨"category", "category", false, none⟩,
       ⟨"supplier", "supplier", false, none⟩]
  | .labour =>
      [⟨"date", "date", false, none⟩, ⟨"name", "name", false, none⟩,
       ⟨"task", "task", false, none⟩]

/-- `initDB`'s index creation loop:
`store.createIndex(indexConfig.name, indexConfig.keyPath, indexConfig.options)`.
An absent options object leaves `unique` at its default `false`; the
entry's top-level `unique` flag is never read. -/
def createdIndices (entries : List ProviderIndexEntry) : List IndexCfg :=
  entries.map fun e => ⟨e.name, e.keyPath, e.options.getD false⟩

/-- The indices actually created on each store. -/
def storeIndices (n : StoreName) : List IndexCfg :=
  createdIndices (providerIndices n)

/-! ## IndexedDB object-store semantics

Modelled from the spec: the store engine itself (key generation, rejection of
duplicate primary keys and of unique-index violations with `ConstraintError`)
is host IndexedDB behaviour, not repository code.  Records are kept in
insertion order, which for these auto-increment stores coincides with key
order; the spec fixes insertion order for `getAll` without an index. -/

/-- Errors surfaced by the persistence layer. -/
inductive DBError where
  | constraintError
  | notFound (msg : String)
deriving DecidableEq, Repr

/-- One object store: its records in insertion order and the state of its
auto-increment key generator (IndexedDB generators start at 1). -/
structure Store where
  records : List Obj
  nextKey : ℕ
deriving DecidableEq, Repr

/-- A fresh, empty object store. -/
def Store.empty : Store := ⟨[], 1⟩

/-- A generated key, as a JavaScript number. -/
def keyFromNat (n : ℕ) : Value := .num n

/-- Whether some record of `recs` already carries key `key` at the key path. -/
def hasKey (recs : List Obj) (keyPath : String) (key : Value) : Bool :=
  recs.any fun r => getField r keyPath == some key

/-- Whether inserting `item` would violate a unique index of the store:
some unique index has a value on `item` already present on a stored record. -/
def violatesUniqueIndex (ixs : List IndexCfg) (recs : List Obj) (item : Obj) :
    Bool :=
  ixs.any fun ix =>
    ix.unique &&
      match getField item ix.keyPath with
      | some v => recs.any fun r => getField r ix.keyPath == some v
      | none => false

/-- As `violatesUniqueIndex`, but ignoring the record stored under `key`
itself — the check `put` performs when overwriting an existing record. -/
def violatesUniqueIndexExcl (ixs : List IndexCfg) (recs : List Obj)
    (key : Value) (item : Obj) : Bool :=
  ixs.any fun ix =>
    ix.unique &&
      match getField item ix.keyPath with
      | some v =>
          recs.any fun r =>
            getField r ix.keyPath == some v && !(getField r "id" == some key)
      | none => false

/-- Advances the key generator past an explicitly supplied numeric key. -/
def bumpKey (nk : ℕ) (k : Value) : ℕ :=
  match k with
  | .num q => if (nk : ℤ) ≤ q then q.toNat + 1 else nk
  | _ => nk

/-- Modelled from the spec: `store.add(item)` for a store with key path `id`
and auto-increment keys.  Uses the in-line key when present, otherwise
assigns the generated key; rejects with `ConstraintError` on a duplicate
primary key or a unique-index violation. -/
def storeAdd (ixs : List IndexCfg) (s : Store) (item : Obj) :
    Except DBError (Store × Value) :=
  let withId : Obj × Value × ℕ :=
    match getField item "id" with
    | some k => (item, k, bumpKey s.nextKey k)
    | none =>
        (item ++ [("id", keyFromNat s.nextKey)], keyFromNat s.nextKey,
         s.nextKey + 1)
  if hasKey s.records "id" withId.2.1 then .error .constraintError
  else if violatesUniqueIndex ixs s.records withId.1 then
    .error .constraintError
  else .ok (⟨s.records ++ [withId.1], withId.2.2⟩, withId.2.1)

/-- Replaces the record stored under `key` by `item`, inserting at the end
if no record carries `key`. -/
def replaceByKey : List Obj → Value → Obj → List Obj
  | [], _, item => [item]
  | r :: rest, key, item =>
      if getField r "id" == some key then item :: rest
      else r :: replaceByKey rest key item

/-- Modelled from the spec: `store.put(item)` — inserts or overwrites at the
in-line key, enforcing unique indices against the other records. -/
def storePut (ixs : List IndexCfg) (s : Store) (item : Obj) :
    Except DBError Store :=
  match getField item "id" with
  | none => (storeAdd ixs s item).map Prod.fst
  | some key =>
      if violatesUniqueIndexExcl ixs s.records key item then
        .error .constraintError
      else .ok ⟨replaceByKey s.records key item, bumpKey s.nextKey key⟩

/-- `store.get(key)`: the record stored under `key`, if any. -/
def storeGet (s : Store) (key : Value) : Option Obj :=
  s.records.find? fun r => getField r "id" == some key

/-- `store.delete(key)`: removes the record under `key`; idempotent. -/
def storeDelete (s : Store) (key : Value) : Store :=
  ⟨s.records.filter (fun r => !(getField r "id" == some key)), s.nextKey⟩

/-- `store.clear()`: removes every record.  IndexedDB's `clear` does not
reset the key generator. -/
def storeClear (s : Store) : Store :=
  ⟨[], s.nextKey⟩

/-! ## The database and the `DatabaseProvider` operations -/

/-- The `FarmDB` database: one object store per declared store name. -/
structure DB where
  activities : Store
  inventory : Store
  sales : Store
  expenses : Store
  labour : Store
deriving DecidableEq, Repr

/-- A freshly created database: every store empty. -/
def DB.empty : DB :=
  ⟨Store.empty, Store.empty, Store.empty, Store.empty, Store.empty⟩

/-- The store of `db` named `n`. -/
def DB.getStore (db : DB) : StoreName → Store
  | .activities => db.activities
  | .inventory => db.inventory
  | .sales => db.sales
  | .expenses => db.expenses
  | .labour => db.labour

/-- Replaces the store named `n` in `db` by `s`. -/
def DB.setStore (db : DB) (n : StoreName) (s : Store) : DB :=
  match n with
  | .activities => { db with activities := s }
  | .inventory => { db with inventory := s }
  | .sales => { db with sales := s }
  | .expenses => { db with expenses := s }
  | .labour => { db with labour := s }

/-- The provider's `get`: reads the record stored under `id` in store `n`. -/
def dbGet (db : DB) (n : StoreName) (id : Value) : Option Obj :=
  storeGet (db.getStore n) id

/-- The provider's `getAll` without a query: every record of the store. -/
def dbGetAll (db : DB) (n : StoreName) : List Obj :=
  (db.getStore n).records

/-- The timestamp spread of `addWithTimestamps`:
`\x7b...item, createdAt: now, updatedAt: now\x7d`. -/
def withTimestamps (now : String) (item : Obj) : Obj :=
  item ++ [("createdAt", .str now), ("updatedAt", .str now)]

/-- `addWithTimestamps(storeName, item)`: stamps `createdAt`/`updatedAt` with
the current time and inserts the record, returning the assigned key. -/
def addWithTimestamps (now : String) (db : DB) (n : StoreName) (item : Obj) :
    Except DBError (DB × Value) :=
  (storeAdd (storeIndices n) (db.getStore n) (withTimestamps now item)).map
    fun p => (db.setStore n p.1, p.2)

/-- `updateWithTimestamps(storeName, id, updates)`: fails when no record is
stored under `id`; otherwise persists
`\x7b...existing, ...updates, id, updatedAt: now\x7d`. -/
def updateWithTimestamps (now : String) (db : DB) (n : StoreName) (id : Value)
    (updates : Obj) : Except DBError DB :=
  match dbGet db n id with
  | none => .error (.notFound ((storeNameStr n).dropRight 1 ++ " not found"))
  | some existing =>
      (storePut (storeIndices n) (db.getStore n)
          (existing ++ updates ++ [("id", id), ("updatedAt", .str now)])).map
        (db.setStore n)

/-- JavaScript multiplication of two possibly-undefined field values:
numeric when both operands are numbers, `NaN` otherwise. -/
def jsMul (a b : Option Value) : Value :=
  match a, b with
  | some (.num x), some (.num y) => .num (x * y)
  | _, _ => .nan

/-- `addSale(sale)`: computes `total = sale.quantity * sale.pricePerUnit`
and inserts `\x7b...sale, total\x7d` with timestamps. -/
def addSale (now : String) (db : DB) (sale : Obj) :
    Except DBError (DB × Value) :=
  addWithTimestamps now db .sales
    (sale ++ [("total", jsMul (getField sale "quantity")
                              (getField sale "pricePerUnit"))])

/-- `updateSale(id, updates)`: when the update touches `quantity` or
`pricePerUnit` and the sale exists, recomputes `updates.total` from the
merged quantity and price (`updates.x ?? sale.x`); then delegates to
`updateWithTimestamps`. -/
def updateSale (now : String) (db : DB) (id : Value) (updates : Obj) :
    Except DBError DB :=
  let updates' :=
    if hasField updates "quantity" || hasField updates "pricePerUnit" then
      match dbGet db .sales id with
      | some sale =>
          updates ++
            [("total",
              jsMul (orOpt (getField updates "quantity")
                           (getField sale "quantity"))
                    (orOpt (getField updates "pricePerUnit")
                           (getField sale "pricePerUnit")))]
      | none => updates
    else updates
  updateWithTimestamps now db .sales id updates'

/-! ## Export / import -/

/-- A top-level value of an import document: an array of records, or any
non-array value (such as a metadata string). -/
inductive DocVal where
  | arr (items : List Obj)
  | scalar (v : Value)
deriving DecidableEq, Repr

/-- `exportData()`: one entry per object store, in `objectStoreNames` order,
holding the store's full record array. -/
def exportData (db : DB) : List (String × List Obj) :=
  allStoreNames.map fun n => (storeNameStr n, dbGetAll db n)

/-- Resolves a document key against `db.objectStoreNames`. -/
def parseStoreName (s : String) : Option StoreName :=
  allStoreNames.find? fun n => storeNameStr n == s

/-- The loop `for (const item of items) await store.add(item)`: adds the
records one by one, in array order; the first failure aborts. -/
def importArray (ixs : List IndexCfg) (st : Store) : List Obj →
    Except DBError Store
  | [] => .ok st
  | item :: rest =>
      match storeAdd ixs st item with
      | .ok p => importArray ixs p.1 rest
      | .error e => .error e

/-- Adds the document's items for one store, in array order, to the cleared
store; a non-array value contributes no records (the `Array.isArray`
guard). -/
def importItems (ixs : List IndexCfg) (st : Store) : DocVal →
    Except DBError Store
  | .arr items => importArray ixs st items
  | .scalar _ => .ok st

/-- `importData(data)`: for each top-level entry naming an existing store,
clears that store and re-adds the entry's records in array order; entries
with unknown keys are skipped. -/
def importData (db : DB) : List (String × DocVal) → Except DBError DB
  | [] => .ok db
  | entry :: rest =>
      match parseStoreName entry.1 with
      | none => importData db rest
      | some n =>
          match importItems (storeIndices n) (storeClear (db.getStore n))
              entry.2 with
          | .ok st => importData (db.setStore n st) rest
          | .error e => .error e

/-! ## Sequences of sale operations

Machinery for the derived-consistency property: a sale operation is either
an `addSale` or an `updateSale` call; a failed call leaves the database
unchanged (the transaction aborts). -/

/-- One call against the sales store. -/
inductive SaleOp where
  | addOp (now : String) (sale : Obj)
  | updOp (now : String) (id : Value) (updates : Obj)
deriving DecidableEq, Repr

/-- Runs one sale operation; on failure the database is unchanged. -/
def runSaleOp (db : DB) : SaleOp → DB
  | .addOp now sale =>
      match addSale now db sale with
      | .ok p => p.1
      | .error _ => db
  | .updOp now id updates =>
      match updateSale now db id updates with
      | .ok db' => db'
      | .error _ => db

/-- Runs a sequence of sale operations in order. -/
def runSaleOps (db : DB) (ops : List SaleOp) : DB :=
  ops.foldl runSaleOp db

/-- Derived-field consistency of one sale record:
`total == quantity * pricePerUnit` under JavaScript multiplication. -/
def saleConsistentB (r : Obj) : Bool :=
  getField r "total" ==
    some (jsMul (getField r "quantity") (getField r "pricePerUnit"))

/-- Every record of the sales store is derived-field consistent. -/
def salesConsistentB (db : DB) : Bool :=
  (db.getStore .sales).records.all saleConsistentB

/-- An operation that cannot plant a stale `total`: any `updateSale` that
supplies `total` also supplies `quantity` or `pricePerUnit` (so the supplied
`total` is overwritten by the recomputed one). -/
def saleOpSafe : SaleOp → Bool
  | .addOp _ _ => true
  | .updOp _ _ updates =>
      !hasField updates "total" || hasField updates "quantity" ||
        hasField updates "pricePerUnit"

/-! ## Flat fallback store (`localStorage` wrapper)

The `storage` object of the utility module and the `readValue` path of the
`useLocalStorage` hook.  `JSON.parse` and the underlying `setItem` are host
functions, passed in as parameters; a result of `Except.error` stands for a
thrown exception.  The outer `Except` of each operation shows whether an
exception escapes to the caller: the bodies wrap everything in `try/catch`,
so they always return `.ok`. -/

/-- An exception thrown by a host storage or JSON primitive. -/
inductive JsError where
  | parseError (raw : String)
  | quotaExceeded
  | other (msg : String)
deriving DecidableEq, Repr

/-- The flat backing store: `localStorage` as key-to-serialized-text. -/
abbrev LocalStorage := List (String × String)

/-- `localStorage.getItem(key)`: the stored text, or `null` when absent. -/
def lsGetItem (ls : LocalStorage) (key : String) : Option String :=
  (ls.find? fun p => p.1 == key).map Prod.snd

/-- Outcome of a read: the returned value plus where errors were reported —
`console.error`/`console.warn` logs, calls of the injected `onError`
handler, and destructive toasts shown. -/
structure GetOutcome (T : Type) where
  value : T
  consoleReports : List JsError
  handlerReports : List JsError
  toastCount : ℕ
deriving DecidableEq, Repr

/-- `storage.get(key, defaultValue)`: parses the stored text, returning the
default when the key is absent, the text is empty (falsy), or parsing throws;
a parse failure is caught and logged to the console. -/
def storageGet {T : Type} (parse : String → Except JsError T)
    (ls : LocalStorage) (key : String) (defaultValue : T) :
    Except JsError (GetOutcome T) :=
  match lsGetItem ls key with
  | none => .ok ⟨defaultValue, [], [], 0⟩
  | some item =>
      if item = "" then .ok ⟨defaultValue, [], [], 0⟩
      else
        match parse item with
        | .ok v => .ok ⟨v, [], [], 0⟩
        | .error e => .ok ⟨defaultValue, [e], [], 0⟩

/-- `readValue` of `useLocalStorage`: as `storage.get`, but reporting a
caught error to the injected `onError` handler when one was supplied and
otherwise showing a destructive toast. -/
def readValue {T : Type} (hasWindow : Bool) (parse : String → Except JsError T)
    (ls : LocalStorage) (key : String) (initialValue : T)
    (hasOnError : Bool) : Except JsError (GetOutcome T) :=
  if !hasWindow then .ok ⟨initialValue, [], [], 0⟩
  else
    match lsGetItem ls key with
    | none => .ok ⟨initialValue, [], [], 0⟩
    | some item =>
        if item = "" then .ok ⟨initialValue, [], [], 0⟩
        else
          match parse item with
          | .ok v => .ok ⟨v, [], [], 0⟩
          | .error e =>
              if hasOnError then .ok ⟨initialValue, [e], [e], 0⟩
              else .ok ⟨initialValue, [e], [], 1⟩

/-- Outcome of a write: the resulting backing store and the errors logged
to the console. -/
structure SetOutcome where
  store : LocalStorage
  consoleReports : List JsError
deriving DecidableEq, Repr

/-- `storage.set(key, value)`: attempts the underlying `setItem` write; a
failure (such as quota exhaustion) is caught and logged, and the function
returns normally. -/
def storageSet
    (setItem : LocalStorage → String → String → Except JsError LocalStorage)
    (ls : LocalStorage) (key value : String) :
    Except JsError SetOutcome :=
  match setItem ls key value with
  | .ok ls' => .ok ⟨ls', []⟩
  | .error e => .ok ⟨ls, [e]⟩

/-! ## Sample data

Concrete runs used by witness and counterexample theorems.  Each `dbAfter...`
definition extracts the successful result of the corresponding operation
(falling back to the empty database, a case the accompanying theorems show
does not occur). -/

/-- A sample activity record, as submitted by the activity form. -/
def activityItem : Obj := [("date", .str "2024-01-01")]

/-- The database after adding `activityItem` to `activities`. -/
def dbAfterAdd : DB :=
  match addWithTimestamps "t0" DB.empty .activities activityItem with
  | .ok p => p.1
  | .error _ => DB.empty

/-- `dbAfterAdd` after an update that tries to change `id` and `createdAt`. -/
def dbAfterImmutableUpdate : DB :=
  match updateWithTimestamps "t1" dbAfterAdd .activities (.num 1)
      [("id", .num 99), ("createdAt", .str "1999-01-01")] with
  | .ok d => d
  | .error _ => DB.empty

/-- `dbAfterAdd` after an update whose single field is the primary key. -/
def dbAfterIdUpdate : DB :=
  match updateWithTimestamps "t1" dbAfterAdd .activities (.num 1)
      [("id", .num 99)] with
  | .ok d => d
  | .error _ => DB.empty

/-- `dbAfterAdd` after a single-field update of `notes`. -/
def dbAfterNotesUpdate : DB :=
  match updateWithTimestamps "t1" dbAfterAdd .activities (.num 1)
      [("notes", .str "weeding")] with
  | .ok d => d
  | .error _ => DB.empty

/-- A sample sale record, as submitted by the sales form. -/
def saleItem : Obj :=
  [("product", .str "Tomatoes"), ("quantity", .num 2),
   ("pricePerUnit", .num 3)]

/-- Two inventory items sharing the unique-indexed `name`. -/
def invItem1 : Obj := [("name", .str "Seed"), ("category", .str "Supplies")]

/-- See `invItem1`. -/
def invItem2 : Obj := [("name", .str "Seed"), ("category", .str "Other")]

/-- The database after adding `invItem1` to `inventory`. -/
def dbAfterInvAdd : DB :=
  match addWithTimestamps "t0" DB.empty .inventory invItem1 with
  | .ok p => p.1
  | .error _ => DB.empty

/-- `dbAfterInvAdd` after adding `invItem2`, whose `name` duplicates
`invItem1`'s. -/
def dbAfterInvDupAdd : DB :=
  match addWithTimestamps "t1" dbAfterInvAdd .inventory invItem2 with
  | .ok p => p.1
  | .error _ => DB.empty

/-- A sample import document: one known collection plus a metadata key. -/
def importDoc : List (String × DocVal) :=
  [("sales", .arr [[("id", .num 1), ("product", .str "Maize")]]),
   ("timestamp", .scalar (.str "2024-01-01T00:00:00Z"))]

/-- A database with prior contents in `sales` and `expenses`. -/
def dbBeforeImport : DB :=
  { DB.empty with
      sales := ⟨[[("id", .num 7), ("product", .str "Yam")]], 8⟩,
      expenses := ⟨[[("id", .num 3)]], 4⟩ }

/-- `dbBeforeImport` after importing `importDoc`. -/
def dbAfterImport : DB :=
  match importData dbBeforeImport importDoc with
  | .ok d => d
  | .error _ => DB.empty

/-! ## Basic lemmas -/

theorem getStore_setStore_same (db : DB) (n : StoreName) (s : Store) :
    (db.setStore n s).getStore n = s := by
  cases n <;> rfl

theorem getStore_setStore_ne (db : DB) (m n : StoreName) (s : Store)
    (h : m ≠ n) : (db.setStore m s).getStore n = db.getStore n := by
  cases m <;> cases n <;> first | rfl | exact absurd rfl h

theorem dbGet_id {db : DB} {n : StoreName} {id : Value} {r : Obj}
    (h : dbGet db n id = some r) : getField r "id" = some id := by
  have h' : List.find? (fun r => getField r "id" == some id)
      (db.getStore n).records = some r := h
  have := List.find?_some h'
  simpa using this

theorem dbGet_mem {db : DB} {n : StoreName} {id : Value} {r : Obj}
    (h : dbGet db n id = some r) : r ∈ (db.getStore n).records := by
  have h' : List.find? (fun r => getField r "id" == some id)
      (db.getStore n).records = some r := h
  exact List.mem_of_find?_eq_some h'

theorem parseStoreName_storeNameStr (n : StoreName) :
    parseStoreName (storeNameStr n) = some n := by
  cases n <;> rfl

theorem eq_of_parseStoreName {s : String} {n : StoreName}
    (h : parseStoreName s = some n) : s = storeNameStr n := by
  have h' : List.find? (fun n => storeNameStr n == s) allStoreNames = some n := h
  have := List.find?_some h'
  exact (eq_of_beq this).symm

theorem getField_withTimestamps_ne (now : String) (item : Obj) {f : String}
    (h1 : f ≠ "createdAt") (h2 : f ≠ "updatedAt") :
    getField (withTimestamps now item) f = getField item f := by
  have h1' : ¬("createdAt" = f) := fun h => h1 h.symm
  have h2' : ¬("updatedAt" = f) := fun h => h2 h.symm
  simp [withTimestamps, getField_append, getField, orOpt, h1', h2']

theorem getField_withTimestamps_createdAt (now : String) (item : Obj) :
    getField (withTimestamps now item) "createdAt" = some (.str now) := by
  simp [withTimestamps, getField_append, getField, orOpt]

theorem getField_withTimestamps_updatedAt (now : String) (item : Obj) :
    getField (withTimestamps now item) "updatedAt" = some (.str now) := by
  simp [withTimestamps, getField_append, getField, orOpt]

/-- The forced tail of every `updateWithTimestamps` write carries the key. -/
theorem getField_updateTail_id (old updates : Obj) (id : Value) (now : String) :
    getField (old ++ updates ++ [("id", id), ("updatedAt", .str now)]) "id"
      = some id := by
  simp [getField_append, getField, orOpt]

theorem getField_updateTail_updatedAt (old updates : Obj) (id : Value)
    (now : String) :
    getField (old ++ updates ++ [("id", id), ("updatedAt", .str now)])
      "updatedAt" = some (.str now) := by
  simp [getField_append, getField, orOpt]

theorem getField_updateTail_ne (old updates : Obj) (id : Value) (now : String)
    {f : String} (h1 : f ≠ "id") (h2 : f ≠ "updatedAt") :
    getField (old ++ updates ++ [("id", id), ("updatedAt", .str now)]) f
      = orOpt (getField updates f) (getField old f) := by
  have h1' : ¬("id" = f) := fun h => h1 h.symm
  have h2' : ¬("updatedAt" = f) := fun h => h2 h.symm
  simp [getField_append, getField, orOpt, h1', h2']

/-! ## Specification lemmas for the store operations -/

theorem storeAdd_ok {ixs : List IndexCfg} {s : Store} {item : Obj}
    {s' : Store} {key : Value} (h : storeAdd ixs s item = .ok (s', key)) :
    ∃ stored,
      s'.records = s.records ++ [stored] ∧
      getField stored "id" = some key ∧
      (∀ f, f ≠ "id" → getField stored f = getField item f) ∧
      hasKey s.records "id" key = false ∧
      violatesUniqueIndex ixs s.records stored = false := by
  cases hid : getField item "id" with
  | some k =>
      simp only [storeAdd, hid] at h
      split at h
      · exact absurd h (by simp)
      · split at h
        · exact absurd h (by simp)
        · rename_i hkey huniq
          simp only [Except.ok.injEq, Prod.mk.injEq] at h
          obtain ⟨h1, h2⟩ := h
          subst h1; subst h2
          refine ⟨item, rfl, ?_, fun f _ => rfl, ?_, ?_⟩
          · exact hid
          · simpa using hkey
          · simpa using huniq
  | none =>
      simp only [storeAdd, hid] at h
      split at h
      · exact absurd h (by simp)
      · split at h
        · exact absurd h (by simp)
        · rename_i hkey huniq
          simp only [Except.ok.injEq, Prod.mk.injEq] at h
          obtain ⟨h1, h2⟩ := h
          subst h1; subst h2
          refine ⟨item ++ [("id", keyFromNat s.nextKey)], rfl, ?_, ?_, ?_, ?_⟩
          · simp [getField_append, getField, orOpt]
          · intro f hf
            have hf' : ¬("id" = f) := fun h => hf h.symm
            simp [getField_append, getField, orOpt, hf']
          · simpa using hkey
          · simpa using huniq

theorem addWT_ok {now : String} {db : DB} {n : StoreName} {item : Obj}
    {db' : DB} {key : Value}
    (h : addWithTimestamps now db n item = .ok (db', key)) :
    ∃ stored,
      (db'.getStore n).records = (db.getStore n).records ++ [stored] ∧
      dbGet db' n key = some stored ∧
      getField stored "id" = some key ∧
      (∀ f, f ≠ "id" → f ≠ "createdAt" → f ≠ "updatedAt" →
          getField stored f = getField item f) ∧
      getField stored "createdAt" = some (.str now) ∧
      getField stored "updatedAt" = some (.str now) ∧
      ∀ m, m ≠ n → db'.getStore m = db.getStore m := by
  cases hsa : storeAdd (storeIndices n) (db.getStore n)
      (withTimestamps now item) with
  | error e => simp [addWithTimestamps, hsa, Except.map] at h
  | ok p =>
      obtain ⟨s₁, k₁⟩ := p
      simp only [addWithTimestamps, hsa, Except.map, Except.ok.injEq,
        Prod.mk.injEq] at h
      obtain ⟨h1, h2⟩ := h
      subst h1; subst h2
      obtain ⟨stored, hrec, hid, hpres, hfresh, _⟩ := storeAdd_ok hsa
      have hget : dbGet (db.setStore n s₁) n k₁ = some stored := by
        have hfresh' : ((db.getStore n).records.any
            fun r => getField r "id" == some k₁) = false := hfresh
        have hnone : List.find? (fun r => getField r "id" == some k₁)
            (db.getStore n).records = none := by
          rw [List.find?_eq_none]
          intro x hx
          have := List.any_eq_false.mp hfresh' x hx
          simpa using this
        show storeGet ((db.setStore n s₁).getStore n) k₁ = some stored
        rw [getStore_setStore_same]
        show List.find? (fun r => getField r "id" == some k₁) s₁.records
          = some stored
        rw [hrec, List.find?_append, hnone, Option.none_or]
        exact List.find?_cons_of_pos _ (by simp [hid])
      refine ⟨stored, by rw [getStore_setStore_same, hrec], hget, hid,
        ?_, ?_, ?_, ?_⟩
      · intro f hf hc hu
        rw [hpres f hf, getField_withTimestamps_ne now item hc hu]
      · rw [hpres "createdAt" (by decide),
          getField_withTimestamps_createdAt]
      · rw [hpres "updatedAt" (by decide),
          getField_withTimestamps_updatedAt]
      · intro m hm
        exact getStore_setStore_ne db n m s₁ (fun hnm => hm hnm.symm)

theorem find?_replaceByKey (recs : List Obj) (key : Value) (item : Obj)
    (hitem : getField item "id" = some key) :
    (replaceByKey recs key item).find?
      (fun r => getField r "id" == some key) = some item := by
  induction recs with
  | nil =>
      exact List.find?_cons_of_pos _ (by simp [hitem])
  | cons r rest ih =>
      cases hr : (getField r "id" == some key) with
      | true =>
          simp only [replaceByKey, hr, if_true]
          exact List.find?_cons_of_pos _ (by simp [hitem])
      | false =>
          simp only [replaceByKey, hr, Bool.false_eq_true, if_false]
          rw [List.find?_cons_of_neg _ (by simp_all), ih]

theorem mem_replaceByKey {recs : List Obj} {key : Value} {item r : Obj}
    (h : r ∈ replaceByKey recs key item) : r = item ∨ r ∈ recs := by
  induction recs with
  | nil => simpa [replaceByKey] using h
  | cons r₀ rest ih =>
      by_cases hr : (getField r₀ "id" == some key) = true
      · simp only [replaceByKey, hr, if_true] at h
        rcases List.mem_cons.mp h with h | h
        · exact Or.inl h
        · exact Or.inr (List.mem_cons_of_mem _ h)
      · simp only [replaceByKey, eq_false_of_ne_true hr, Bool.false_eq_true,
          if_false] at h
        rcases List.mem_cons.mp h with h | h
        · exact Or.inr (h ▸ List.mem_cons_self _ _)
        · rcases ih h with h | h
          · exact Or.inl h
          · exact Or.inr (List.mem_cons_of_mem _ h)

theorem updateWT_ok {now : String} {db : DB} {n : StoreName} {id : Value}
    {updates : Obj} {db' : DB}
    (h : updateWithTimestamps now db n id updates = .ok db') :
    ∃ old, dbGet db n id = some old ∧
      (db'.getStore n).records =
        replaceByKey (db.getStore n).records id
          (old ++ updates ++ [("id", id), ("updatedAt", .str now)]) ∧
      dbGet db' n id =
        some (old ++ updates ++ [("id", id), ("updatedAt", .str now)]) ∧
      ∀ m, m ≠ n → db'.getStore m = db.getStore m := by
  cases hold : dbGet db n id with
  | none => simp [updateWithTimestamps, hold] at h
  | some old =>
      have hid := getField_updateTail_id old updates id now
      cases hsp : storePut (storeIndices n) (db.getStore n)
          (old ++ updates ++ [("id", id), ("updatedAt", .str now)]) with
      | error e =>
          simp only [updateWithTimestamps, hold] at h
          rw [hsp] at h
          simp [Except.map] at h
      | ok s₁ =>
          simp only [updateWithTimestamps, hold] at h
          rw [hsp] at h
          simp only [Except.map, Except.ok.injEq] at h
          subst h
          have hrec : s₁.records =
              replaceByKey (db.getStore n).records id
                (old ++ updates ++ [("id", id), ("updatedAt", .str now)]) := by
            simp only [storePut, hid] at hsp
            split at hsp
            · exact absurd hsp (by simp)
            · simp only [Except.ok.injEq] at hsp
              rw [← hsp]
          refine ⟨old, rfl, by rw [getStore_setStore_same, hrec], ?_, ?_⟩
          · show storeGet ((db.setStore n s₁).getStore n) id = _
            rw [getStore_setStore_same]
            show List.find? (fun r => getField r "id" == some id) s₁.records
              = _
            rw [hrec]
            exact find?_replaceByKey _ _ _ hid
          · intro m hm
            exact getStore_setStore_ne db n m s₁ (fun hnm => hm hnm.symm)

/-! ## Claim theorems -/

/-- C5: add/get round trip — when `add(c, r)` succeeds with key `k`,
`get(c, k)` returns a record agreeing with `r` on every field of `r` except
at most the assigned primary key and the `createdAt`/`updatedAt` timestamps,
which `add` assigns, both equal to the time of creation. -/
theorem addGetRoundTrip (now : String) (db : DB) (n : StoreName) (item : Obj)
    (db' : DB) (key : Value)
    (h : addWithTimestamps now db n item = .ok (db', key)) :
    ∃ r, dbGet db' n key = some r ∧
      (∀ f, f ≠ "id" → f ≠ "createdAt" → f ≠ "updatedAt" →
          getField r f = getField item f) ∧
      getField r "createdAt" = some (.str now) ∧
      getField r "updatedAt" = some (.str now) ∧
      getField r "id" = some key := by
  obtain ⟨stored, _, hget, hid, hpres, hc, hu, _⟩ := addWT_ok h
  exact ⟨stored, hget, hpres, hc, hu, hid⟩

/-- C5 witness: the round trip at a concrete activity record. -/
theorem addGetRoundTrip_witness :
    ∃ r, dbGet dbAfterAdd .activities (.num 1) = some r ∧
      (∀ f, f ≠ "id" → f ≠ "createdAt" → f ≠ "updatedAt" →
          getField r f = getField activityItem f) ∧
      getField r "createdAt" = some (.str "t0") ∧
      getField r "updatedAt" = some (.str "t0") ∧
      getField r "id" = some (.num 1) :=
  addGetRoundTrip "t0" DB.empty .activities activityItem dbAfterAdd (.num 1)
    (by decide)

/-- C10: every successful `updateWithTimestamps(c, key, updates)` persists
the record under `key` with its `id` field equal to `key`, whatever `id`
value `updates` may carry. -/
theorem updateForcesPrimaryKey (now : String) (db : DB) (n : StoreName)
    (id : Value) (updates : Obj) (db' : DB)
    (h : updateWithTimestamps now db n id updates = .ok db') :
    ∃ r, dbGet db' n id = some r ∧ getField r "id" = some id := by
  obtain ⟨old, _, _, hget, _⟩ := updateWT_ok h
  exact ⟨old ++ updates ++ [("id", id), ("updatedAt", .str now)], hget,
    getField_updateTail_id old updates id now⟩

/-- C10 witness: an update carrying a conflicting `id: 99` still persists
the record under key 1 with `id = 1`. -/
theorem updateForcesPrimaryKey_witness :
    ∃ r, dbGet dbAfterImmutableUpdate .activities (.num 1) = some r ∧
      getField r "id" = some (.num 1) :=
  updateForcesPrimaryKey "t1" dbAfterAdd .activities (.num 1)
    [("id", .num 99), ("createdAt", .str "1999-01-01")]
    dbAfterImmutableUpdate (by decide)

/-- C2 counterexample: an update whose `partialUpdates` carries `id` and
`createdAt` values different from the stored ones is accepted, and the
stored `createdAt` is changed — the claim says it must be rejected with the
record left unchanged. -/
theorem updateImmutableFields_ce :
    updateWithTimestamps "t1" dbAfterAdd .activities (.num 1)
        [("id", .num 99), ("createdAt", .str "1999-01-01")]
      = .ok dbAfterImmutableUpdate ∧
    ((dbGet dbAfterAdd .activities (.num 1)).bind
        fun r => getField r "createdAt") = some (.str "t0") ∧
    ((dbGet dbAfterImmutableUpdate .activities (.num 1)).bind
        fun r => getField r "createdAt") = some (.str "1999-01-01") := by
  decide

/-- C2 as amended: `updateWithTimestamps` never rejects `id` or `createdAt`
in `partialUpdates`.  On every successful update the persisted record's
`id` equals the key (a conflicting `id` in the updates is silently
overridden), while a `createdAt` in the updates is merged like any other
field, overwriting the stored value. -/
theorem updateImmutableFields (now : String) (db : DB) (n : StoreName)
    (id : Value) (updates : Obj) (db' : DB)
    (h : updateWithTimestamps now db n id updates = .ok db') :
    ∃ old r, dbGet db n id = some old ∧ dbGet db' n id = some r ∧
      getField r "id" = some id ∧
      getField r "createdAt" =
        orOpt (getField updates "createdAt") (getField old "createdAt") := by
  obtain ⟨old, hold, _, hget, _⟩ := updateWT_ok h
  refine ⟨old, _, hold, hget, getField_updateTail_id old updates id now, ?_⟩
  rw [getField_updateTail_ne old updates id now (by decide) (by decide)]

/-- C2 witness: the amended statement at the concrete immutable-field
update. -/
theorem updateImmutableFields_witness :
    ∃ old r, dbGet dbAfterAdd .activities (.num 1) = some old ∧
      dbGet dbAfterImmutableUpdate .activities (.num 1) = some r ∧
      getField r "id" = some (.num 1) ∧
      getField r "createdAt" =
        orOpt (getField [(("id" : String), Value.num 99),
            (("createdAt" : String), Value.str "1999-01-01")] "createdAt")
          (getField old "createdAt") :=
  updateImmutableFields "t1" dbAfterAdd .activities (.num 1)
    [("id", .num 99), ("createdAt", .str "1999-01-01")]
    dbAfterImmutableUpdate (by decide)

/-- C6 counterexample: with `field = "id"`, a successful
`update(c, k, \x7bid: v\x7d)` does not set the field to `v`: the stored `id`
remains the key, so the claim's "changes only field (setting it to v)"
fails at this input. -/
theorem updateMergeFrame_ce :
    updateWithTimestamps "t1" dbAfterAdd .activities (.num 1)
        [("id", .num 99)] = .ok dbAfterIdUpdate ∧
    ((dbGet dbAfterIdUpdate .activities (.num 1)).bind
        fun r => getField r "id") = some (.num 1) := by
  decide

/-- C6 as amended: for a field other than the primary key `id` and
`updatedAt` (both of which the merge overrides — `id` is forced to the key
and `updatedAt` to the update time), a successful single-field update sets
exactly that field to `v` and `updatedAt` to the update time, and leaves
every other field of the stored record unchanged. -/
theorem updateMergeFrame (now : String) (db : DB) (n : StoreName)
    (k : Value) (f : String) (v : Value) (db' : DB)
    (hf1 : f ≠ "id") (hf2 : f ≠ "updatedAt")
    (h : updateWithTimestamps now db n k [(f, v)] = .ok db') :
    ∃ old r, dbGet db n k = some old ∧ dbGet db' n k = some r ∧
      getField r f = some v ∧
      getField r "updatedAt" = some (.str now) ∧
      ∀ g, g ≠ f → g ≠ "updatedAt" → getField r g = getField old g := by
  obtain ⟨old, hold, _, hget, _⟩ := updateWT_ok h
  refine ⟨old, _, hold, hget, ?_, getField_updateTail_updatedAt old _ k now,
    ?_⟩
  · rw [getField_updateTail_ne old [(f, v)] k now hf1 hf2,
      getField_singleton, if_pos rfl]
    rfl
  · intro g hg hgu
    by_cases hgid : g = "id"
    · subst hgid
      rw [getField_updateTail_id old [(f, v)] k now, dbGet_id hold]
    · rw [getField_updateTail_ne old [(f, v)] k now hgid hgu,
        getField_singleton, if_neg (fun hfg => hg hfg.symm)]
      rfl

/-- C6 witness: the amended frame property at a concrete `notes` update. -/
theorem updateMergeFrame_witness :
    ∃ old r, dbGet dbAfterAdd .activities (.num 1) = some old ∧
      dbGet dbAfterNotesUpdate .activities (.num 1) = some r ∧
      getField r "notes" = some (.str "weeding") ∧
      getField r "updatedAt" = some (.str "t1") ∧
      ∀ g, g ≠ "notes" → g ≠ "updatedAt" → getField r g = getField old g :=
  updateMergeFrame "t1" dbAfterAdd .activities (.num 1) "notes"
    (.str "weeding") dbAfterNotesUpdate (by decide) (by decide) (by decide)

/-- C3 counterexample: the export document of the (empty) database carries
no `timestamp` and no `schemaVersion` key — its keys are exactly the
collection names. -/
theorem exportDocumentShape_ce :
    ((exportData DB.empty).map Prod.fst).contains "timestamp" = false ∧
    ((exportData DB.empty).map Prod.fst).contains "schemaVersion" = false := by
  decide

/-- C3 as amended: the export document contains exactly one entry per
collection, in `objectStoreNames` order, each holding the full array of
that collection's records; no `timestamp` or `schemaVersion` metadata keys
are added. -/
theorem exportDocumentShape (db : DB) :
    (exportData db).map Prod.fst =
      ["activities", "inventory", "sales", "expenses", "labour"] ∧
    ∀ n, (exportData db).lookup (storeNameStr n) = some (dbGetAll db n) := by
  refine ⟨rfl, ?_⟩
  intro n
  cases n <;> rfl

/-- C8: a corrupt stored text never throws out of a fallback-store read:
both `storage.get` and the hook's `readValue` catch the deserialization
error, report it (to the console, and — for `readValue` with an injected
handler — to `onError`), and return the supplied default value. -/
theorem fallbackCorruptionRecovery {T : Type} (parse : String → Except JsError T)
    (ls : LocalStorage) (key item : String) (dflt : T) (e : JsError)
    (h1 : lsGetItem ls key = some item) (h2 : item ≠ "")
    (h3 : parse item = .error e) :
    storageGet parse ls key dflt = .ok ⟨dflt, [e], [], 0⟩ ∧
    readValue true parse ls key dflt true = .ok ⟨dflt, [e], [e], 0⟩ := by
  constructor
  · simp [storageGet, h1, h2, h3]
  · simp [readValue, h1, h2, h3]

/-- C8 witness: recovery at a concrete corrupt blob, with the empty
collection as the default. -/
theorem fallbackCorruptionRecovery_witness :
    storageGet (fun s => (.error (.parseError s) : Except JsError (List Value)))
        [("sales", "corrupt blob")] "sales" []
      = .ok ⟨[], [.parseError "corrupt blob"], [], 0⟩ ∧
    readValue true
        (fun s => (.error (.parseError s) : Except JsError (List Value)))
        [("sales", "corrupt blob")] "sales" [] true
      = .ok ⟨[], [.parseError "corrupt blob"], [.parseError "corrupt blob"], 0⟩ :=
  fallbackCorruptionRecovery (fun s => .error (.parseError s))
    [("sales", "corrupt blob")] "sales" "corrupt blob" [] (.parseError "corrupt blob")
    (by rfl) (by decide) (by rfl)

/-- C9 counterexample: a quota failure thrown by the underlying `setItem`
during `storage.set` is caught and only logged — the call returns normally
(`.ok`) instead of rejecting with the underlying cause. -/
theorem writeFailurePropagation_ce :
    storageSet (fun _ _ _ => .error .quotaExceeded) [("sales", "[]")]
        "sales" "[1]"
      = .ok ⟨[("sales", "[]")], [.quotaExceeded]⟩ ∧
    (storageSet (fun _ _ _ => .error .quotaExceeded) [("sales", "[]")]
        "sales" "[1]").isOk = true := by
  constructor
  · rfl
  · rfl

/-- C9 as amended: the structured-store layer does propagate transactional
failures to the caller (`addWithTimestamps` surfaces the store engine's
error unchanged), but the Flat Fallback Store's `storage.set` catches any
underlying write failure, logs it to the console, and returns normally with
the store unchanged; the failure is not reported to the caller. -/
theorem writeFailurePropagation
    (setItem : LocalStorage → String → String → Except JsError LocalStorage)
    (ls : LocalStorage) (key value : String) (e : JsError)
    (hfail : setItem ls key value = .error e) :
    storageSet setItem ls key value = .ok ⟨ls, [e]⟩ ∧
    ∀ (now : String) (db : DB) (n : StoreName) (item : Obj) (e2 : DBError),
      storeAdd (storeIndices n) (db.getStore n) (withTimestamps now item)
        = .error e2 →
      addWithTimestamps now db n item = .error e2 := by
  constructor
  · simp [storageSet, hfail]
  · intro now db n item e2 hsa
    simp [addWithTimestamps, hsa, Except.map]

/-- C9 witness: the amended statement at a concrete failing write. -/
theorem writeFailurePropagation_witness :
    storageSet (fun _ _ _ => .error (.other "QuotaExceededError")) [] "sales"
        "[]" = .ok ⟨[], [.other "QuotaExceededError"]⟩ ∧
    ∀ (now : String) (db : DB) (n : StoreName) (item : Obj) (e2 : DBError),
      storeAdd (storeIndices n) (db.getStore n) (withTimestamps now item)
        = .error e2 →
      addWithTimestamps now db n item = .error e2 :=
  writeFailurePropagation (fun _ _ _ => .error (.other "QuotaExceededError"))
    [] "sales" "[]" (.other "QuotaExceededError") (by rfl)

/-- C7: the unique-name rejection is the config's intent, but the code drops
the flag — `initDB` forwards the entry's absent `options` to `createIndex`,
so the inventory `name` index is created non-unique and a second add with a
duplicate name succeeds instead of rejecting with `ConstraintError`.  This
theorem evaluates the code at the failing input: the provider entry declares
`unique: true`, the created index is non-unique, both adds succeed, and two
records named "Seed" end up stored. -/
theorem inventoryUniqueNameConstraint :
    ((providerIndices .inventory).any fun e => e.name == "name" && e.unique)
      = true ∧
    ((storeIndices .inventory).any fun ix => ix.name == "name" && ix.unique)
      = false ∧
    addWithTimestamps "t0" DB.empty .inventory invItem1
      = .ok (dbAfterInvAdd, .num 1) ∧
    addWithTimestamps "t1" dbAfterInvAdd .inventory invItem2
      = .ok (dbAfterInvDupAdd, .num 2) ∧
    ((dbAfterInvDupAdd.getStore .inventory).records.filter
        fun r => getField r "name" == some (.str "Seed")).length = 2 := by
  refine ⟨by decide, by decide, by decide, by decide, by decide⟩

theorem addSale_ok {now : String} {db : DB} {sale : Obj} {db' : DB}
    {key : Value} (h : addSale now db sale = .ok (db', key)) :
    ∃ stored,
      (db'.getStore .sales).records
        = (db.getStore .sales).records ++ [stored] ∧
      dbGet db' .sales key = some stored ∧
      getField stored "total" =
        some (jsMul (getField sale "quantity")
                    (getField sale "pricePerUnit")) ∧
      getField stored "quantity" = getField sale "quantity" ∧
      getField stored "pricePerUnit" = getField sale "pricePerUnit" := by
  have h' : addWithTimestamps now db .sales
      (sale ++ [("total", jsMul (getField sale "quantity")
                               (getField sale "pricePerUnit"))])
      = .ok (db', key) := h
  obtain ⟨stored, hrec, hget, _, hpres, _, _, _⟩ := addWT_ok h'
  refine ⟨stored, hrec, hget, ?_, ?_, ?_⟩
  · rw [hpres "total" (by decide) (by decide) (by decide), getField_append,
      getField_singleton, if_pos rfl]
    rfl
  · rw [hpres "quantity" (by decide) (by decide) (by decide),
      getField_append, getField_singleton, if_neg (by decide)]
    rfl
  · rw [hpres "pricePerUnit" (by decide) (by decide) (by decide),
      getField_append, getField_singleton, if_neg (by decide)]
    rfl

theorem salesConsistentB_replace {db db' : DB} {id : Value} {stored : Obj}
    (h : salesConsistentB db = true)
    (hrecs : (db'.getStore .sales).records =
      replaceByKey (db.getStore .sales).records id stored)
    (hstored : saleConsistentB stored = true) :
    salesConsistentB db' = true := by
  simp only [salesConsistentB] at h ⊢
  rw [hrecs, List.all_eq_true]
  intro r hr
  rcases mem_replaceByKey hr with rfl | hr'
  · exact hstored
  · exact List.all_eq_true.mp h r hr'

theorem runSaleOp_add_consistent {db : DB} {now : String} {sale : Obj}
    (h : salesConsistentB db = true) :
    salesConsistentB (runSaleOp db (.addOp now sale)) = true := by
  cases ha : addSale now db sale with
  | error e => simp only [runSaleOp, ha]; exact h
  | ok p =>
      obtain ⟨db', key⟩ := p
      simp only [runSaleOp, ha]
      obtain ⟨stored, hrec, _, ht, hq, hp⟩ := addSale_ok ha
      simp only [salesConsistentB] at h ⊢
      rw [hrec, List.all_append, h, Bool.true_and]
      simp [saleConsistentB, ht, hq, hp]

theorem runSaleOp_upd_consistent {db : DB} {now : String} {id : Value}
    {updates : Obj} (h : salesConsistentB db = true)
    (hsafe : saleOpSafe (.updOp now id updates) = true) :
    salesConsistentB (runSaleOp db (.updOp now id updates)) = true := by
  cases hu : updateSale now db id updates with
  | error e => simp only [runSaleOp, hu]; exact h
  | ok db' =>
      simp only [runSaleOp, hu]
      cases hcond : hasField updates "quantity" || hasField updates
          "pricePerUnit" with
      | true =>
          cases hget : dbGet db .sales id with
          | none =>
              simp only [updateSale, hcond, if_true, hget,
                updateWithTimestamps] at hu
              exact absurd hu (by simp)
          | some sale =>
              simp only [updateSale, hcond, if_true, hget] at hu
              obtain ⟨old, hold, hrecs, _, _⟩ := updateWT_ok hu
              have hos : old = sale := by
                rw [hget] at hold
                exact (Option.some.inj hold).symm
              subst hos
              refine salesConsistentB_replace h hrecs ?_
              have htot : getField (old ++
                  (updates ++ [("total",
                    jsMul (orOpt (getField updates "quantity")
                                 (getField old "quantity"))
                          (orOpt (getField updates "pricePerUnit")
                                 (getField old "pricePerUnit")))]) ++
                  [("id", id), ("updatedAt", .str now)]) "total"
                  = some (jsMul (orOpt (getField updates "quantity")
                                       (getField old "quantity"))
                                (orOpt (getField updates "pricePerUnit")
                                       (getField old "pricePerUnit"))) := by
                rw [getField_updateTail_ne _ _ _ _ (by decide) (by decide),
                  getField_append, getField_singleton, if_pos rfl]
                rfl
              have hqf : getField (old ++
                  (updates ++ [("total",
                    jsMul (orOpt (getField updates "quantity")
                                 (getField old "quantity"))
                          (orOpt (getField updates "pricePerUnit")
                                 (getField old "pricePerUnit")))]) ++
                  [("id", id), ("updatedAt", .str now)]) "quantity"
                  = orOpt (getField updates "quantity")
                      (getField old "quantity") := by
                rw [getField_updateTail_ne _ _ _ _ (by decide) (by decide),
                  getField_append, getField_singleton, if_neg (by decide)]
                cases hx : getField updates "quantity" <;>
                  simp [orOpt, hx]
              have hpf : getField (old ++
                  (updates ++ [("total",
                    jsMul (orOpt (getField updates "quantity")
                                 (getField old "quantity"))
                          (orOpt (getField updates "pricePerUnit")
                                 (getField old "pricePerUnit")))]) ++
                  [("id", id), ("updatedAt", .str now)]) "pricePerUnit"
                  = orOpt (getField updates "pricePerUnit")
                      (getField old "pricePerUnit") := by
                rw [getField_updateTail_ne _ _ _ _ (by decide) (by decide),
                  getField_append, getField_singleton, if_neg (by decide)]
                cases hx : getField updates "pricePerUnit" <;>
                  simp [orOpt, hx]
              simp only [saleConsistentB]
              rw [htot, hqf, hpf]
              simp
      | false =>
          have hq : getField updates "quantity" = none :=
            not_hasField (Bool.or_eq_false_iff.mp hcond).1
          have hp : getField updates "pricePerUnit" = none :=
            not_hasField (Bool.or_eq_false_iff.mp hcond).2
          have ht : getField updates "total" = none := by
            simp only [saleOpSafe, hcond] at hsafe
            have h1 := hsafe
            have h2 : (!hasField updates "total") = true := by
              rcases Bool.or_eq_true_iff.mp h1 with h3 | h3
              · rcases Bool.or_eq_true_iff.mp h3 with h4 | h4
                · exact h4
                · rw [(Bool.or_eq_false_iff.mp hcond).1] at h4
                  cases h4
              · rw [(Bool.or_eq_false_iff.mp hcond).2] at h3
                cases h3
            exact not_hasField (Bool.not_eq_true' .. ▸ h2)
          simp only [updateSale, hcond, Bool.false_eq_true, if_false] at hu
          obtain ⟨old, hold, hrecs, _, _⟩ := updateWT_ok hu
          refine salesConsistentB_replace h hrecs ?_
          have hcons := List.all_eq_true.mp h _ (dbGet_mem hold)
          have hcons' : getField old "total" =
              some (jsMul (getField old "quantity")
                          (getField old "pricePerUnit")) := by
            simpa [saleConsistentB] using hcons
          have htot : getField (old ++ updates ++
              [("id", id), ("updatedAt", .str now)]) "total"
              = getField old "total" := by
            rw [getField_updateTail_ne _ _ _ _ (by decide) (by decide), ht]
            rfl
          have hqf : getField (old ++ updates ++
              [("id", id), ("updatedAt", .str now)]) "quantity"
              = getField old "quantity" := by
            rw [getField_updateTail_ne _ _ _ _ (by decide) (by decide), hq]
            rfl
          have hpf : getField (old ++ updates ++
              [("id", id), ("updatedAt", .str now)]) "pricePerUnit"
              = getField old "pricePerUnit" := by
            rw [getField_updateTail_ne _ _ _ _ (by decide) (by decide), hp]
            rfl
          simp only [saleConsistentB]
          rw [htot, hqf, hpf, hcons']
          simp

theorem runSaleOps_consistent (ops : List SaleOp) : ∀ db : DB,
    salesConsistentB db = true → ops.all saleOpSafe = true →
    salesConsistentB (runSaleOps db ops) = true := by
  induction ops with
  | nil => intro db h _; exact h
  | cons op rest ih =>
      intro db h hall
      have h1 : saleOpSafe op = true := by
        have := List.all_eq_true.mp hall op (List.mem_cons_self _ _)
        exact this
      have h2 : rest.all saleOpSafe = true := by
        rw [List.all_eq_true]
        intro x hx
        exact List.all_eq_true.mp hall x (List.mem_cons_of_mem _ hx)
      have hstep : salesConsistentB (runSaleOp db op) = true := by
        cases op with
        | addOp now sale => exact runSaleOp_add_consistent h
        | updOp now id updates => exact runSaleOp_upd_consistent h h1
      show salesConsistentB (runSaleOps (runSaleOp db op) rest) = true
      exact ih (runSaleOp db op) hstep h2

theorem importData_skip (doc : List (String × DocVal)) : ∀ db : DB,
    importData db doc =
      importData db (doc.filter fun e => (parseStoreName e.1).isSome) := by
  induction doc with
  | nil => intro db; rfl
  | cons e rest ih =>
      intro db
      cases hp : parseStoreName e.1 with
      | none =>
          simp only [importData, hp, List.filter_cons, Option.isSome_none,
            Bool.false_eq_true, if_false]
          exact ih db
      | some n =>
          simp only [importData, hp, List.filter_cons, Option.isSome_some,
            if_true]
          cases importItems (storeIndices n) (storeClear (db.getStore n))
              e.2 with
          | ok st => exact ih (db.setStore n st)
          | error er => rfl

theorem importData_untouched (doc : List (String × DocVal)) :
    ∀ (db db' : DB) (n : StoreName), importData db doc = .ok db' →
      (∀ e ∈ doc, parseStoreName e.1 ≠ some n) →
      db'.getStore n = db.getStore n := by
  induction doc with
  | nil =>
      intro db db' n h _
      cases h
      rfl
  | cons e rest ih =>
      intro db db' n h hall
      cases hp : parseStoreName e.1 with
      | none =>
          simp only [importData, hp] at h
          exact ih db db' n h fun e' he' => hall e' (List.mem_cons_of_mem _ he')
      | some m =>
          have hm : m ≠ n := by
            intro hmn
            exact hall e (List.mem_cons_self _ _) (hmn ▸ hp)
          simp only [importData, hp] at h
          cases hstep : importItems (storeIndices m)
              (storeClear (db.getStore m)) e.2 with
          | error er => rw [hstep] at h; cases h
          | ok st =>
              rw [hstep] at h
              rw [ih (db.setStore m st) db' n h
                  fun e' he' => hall e' (List.mem_cons_of_mem _ he'),
                getStore_setStore_ne db m n st hm]

theorem importData_processed (doc : List (String × DocVal)) :
    ∀ (db db' : DB) (n : StoreName) (items : DocVal),
      importData db doc = .ok db' →
      (doc.map Prod.fst).Nodup →
      (storeNameStr n, items) ∈ doc →
      ∃ st, importItems (storeIndices n) (storeClear (db.getStore n)) items
          = .ok st ∧ db'.getStore n = st := by
  induction doc with
  | nil =>
      intro db db' n items _ _ hmem
      cases hmem
  | cons e rest ih =>
      intro db db' n items h hnd hmem
      have hnd1 : e.1 ∉ rest.map Prod.fst := (List.nodup_cons.mp hnd).1
      have hnd2 : (rest.map Prod.fst).Nodup := (List.nodup_cons.mp hnd).2
      rcases List.mem_cons.mp hmem with heq | hmem'
      · obtain ⟨he1, he2⟩ := Prod.mk.injEq .. ▸ congrArg id heq.symm
        simp only [importData, he1, parseStoreName_storeNameStr] at h
        cases hstep : importItems (storeIndices n)
            (storeClear (db.getStore n)) e.2 with
        | error er => rw [hstep] at h; cases h
        | ok st =>
            rw [hstep] at h
            refine ⟨st, he2 ▸ hstep, ?_⟩
            have hrest : ∀ e' ∈ rest, parseStoreName e'.1 ≠ some n := by
              intro e' he' hpe
              exact hnd1 (he1 ▸ eq_of_parseStoreName hpe ▸
                List.mem_map_of_mem Prod.fst he')
            rw [importData_untouched rest (db.setStore n st) db' n h hrest,
              getStore_setStore_same]
      · cases hp : parseStoreName e.1 with
        | none =>
            simp only [importData, hp] at h
            exact ih db db' n items h hnd2 hmem'
        | some m =>
            have hm : m ≠ n := by
              intro hmn
              subst hmn
              apply hnd1
              rw [eq_of_parseStoreName hp]
              exact List.mem_map_of_mem Prod.fst hmem'
            simp only [importData, hp] at h
            cases hstep : importItems (storeIndices m)
                (storeClear (db.getStore m)) e.2 with
            | error er => rw [hstep] at h; cases h
            | ok st =>
                rw [hstep] at h
                have := ih (db.setStore m st) db' n items h hnd2 hmem'
                rwa [getStore_setStore_ne db m n st hm] at this

/-- C4: import semantics — entries whose keys are not collection names are
skipped (importing a document equals importing its restriction to known
collections); collections absent from the document keep their prior
contents; and each collection present in a (duplicate-free) document is
cleared and then re-populated from the document's array, in order, via
`importItems`. -/
theorem importSemantics :
    (∀ (db : DB) (doc : List (String × DocVal)),
        importData db doc =
          importData db (doc.filter fun e => (parseStoreName e.1).isSome)) ∧
    (∀ (db db' : DB) (doc : List (String × DocVal)) (n : StoreName),
        importData db doc = .ok db' →
        (∀ e ∈ doc, parseStoreName e.1 ≠ some n) →
        db'.getStore n = db.getStore n) ∧
    (∀ (db db' : DB) (doc : List (String × DocVal)) (n : StoreName)
        (items : DocVal),
        importData db doc = .ok db' →
        (doc.map Prod.fst).Nodup →
        (storeNameStr n, items) ∈ doc →
        ∃ st, importItems (storeIndices n) (storeClear (db.getStore n)) items
            = .ok st ∧ db'.getStore n = st) :=
  ⟨fun db doc => importData_skip doc db,
   fun db db' doc n => importData_untouched doc db db' n,
   fun db db' doc n items => importData_processed doc db db' n items⟩

/-- C4 witness: importing a concrete document with one known collection
(`sales`) and one metadata key (`timestamp`) into a database with prior
`sales` and `expenses` contents. -/
theorem importSemantics_witness :
    importData dbBeforeImport importDoc = .ok dbAfterImport ∧
    dbAfterImport.getStore .expenses = dbBeforeImport.getStore .expenses ∧
    ∃ st, importItems (storeIndices .sales)
        (storeClear (dbBeforeImport.getStore .sales))
        (.arr [[("id", .num 1), ("product", .str "Maize")]]) = .ok st ∧
      dbAfterImport.getStore .sales = st := by
  refine ⟨by decide, ?_, ?_⟩
  · exact importSemantics.2.1 dbBeforeImport dbAfterImport importDoc
      .expenses (by decide) (by decide)
  · exact importSemantics.2.2 dbBeforeImport dbAfterImport importDoc .sales
      (.arr [[("id", .num 1), ("product", .str "Maize")]])
      (by decide) (by decide) (by decide)

/-- C1 counterexample: an `updateSale` that supplies only a raw `total`
(no `quantity` or `pricePerUnit`) is persisted unchecked, so after the
sequence `addSale; updateSale(1, \x7btotal: 999\x7d)` the read-back sale has
`total = 999` while `quantity * pricePerUnit = 6` — the claimed invariant
fails, even though the update succeeded. -/
theorem saleDerivedConsistency_ce :
    salesConsistentB (runSaleOps DB.empty
      [.addOp "t0" saleItem, .updOp "t1" (.num 1) [("total", .num 999)]])
      = false ∧
    (updateSale "t1" (runSaleOp DB.empty (.addOp "t0" saleItem)) (.num 1)
        [("total", .num 999)]).isOk = true ∧
    ((dbGet (runSaleOps DB.empty
        [.addOp "t0" saleItem, .updOp "t1" (.num 1) [("total", .num 999)]])
        .sales (.num 1)).bind fun r => getField r "total")
      = some (.num 999) ∧
    ((dbGet (runSaleOps DB.empty
        [.addOp "t0" saleItem, .updOp "t1" (.num 1) [("total", .num 999)]])
        .sales (.num 1)).map fun r =>
          jsMul (getField r "quantity") (getField r "pricePerUnit"))
      = some (.num 6) := by
  refine ⟨by decide, by decide, by decide, by decide⟩

/-- C1 as amended: `addSale` stores `total = quantity * pricePerUnit`
regardless of any caller-supplied total, and `updateSale` with `quantity`
and/or `pricePerUnit` persists the total recomputed from the post-merge
values; consequently, starting from a consistent store, after any sequence
of `addSale`/`updateSale` operations in which no `updateSale` supplies a
`total` without also supplying `quantity` or `pricePerUnit`, every sale
read back satisfies `total == quantity * pricePerUnit`. -/
theorem saleDerivedConsistency :
    (∀ (now : String) (db : DB) (sale : Obj) (db' : DB) (key : Value)
        (r : Obj),
        addSale now db sale = .ok (db', key) →
        dbGet db' .sales key = some r →
        getField r "total" =
          some (jsMul (getField sale "quantity")
                      (getField sale "pricePerUnit"))) ∧
    (∀ (now : String) (db : DB) (id : Value) (updates sale : Obj) (db' : DB)
        (r : Obj),
        (hasField updates "quantity" || hasField updates "pricePerUnit")
          = true →
        dbGet db .sales id = some sale →
        updateSale now db id updates = .ok db' →
        dbGet db' .sales id = some r →
        getField r "total" =
          some (jsMul (orOpt (getField updates "quantity")
                             (getField sale "quantity"))
                      (orOpt (getField updates "pricePerUnit")
                             (getField sale "pricePerUnit")))) ∧
    (∀ (db : DB) (ops : List SaleOp),
        salesConsistentB db = true → ops.all saleOpSafe = true →
        salesConsistentB (runSaleOps db ops) = true) := by
  refine ⟨?_, ?_, fun db ops h hall => runSaleOps_consistent ops db h hall⟩
  · intro now db sale db' key r ha hr
    obtain ⟨stored, _, hget, ht, _, _⟩ := addSale_ok ha
    rw [hget] at hr
    rw [Option.some.inj hr] at ht
    exact ht
  · intro now db id updates sale db' r hcond hget hu hr
    simp only [updateSale, hcond, if_true, hget] at hu
    obtain ⟨old, hold, _, hnew, _⟩ := updateWT_ok hu
    have hos : old = sale := by
      rw [hget] at hold
      exact (Option.some.inj hold).symm
    subst hos
    rw [hnew] at hr
    rw [← Option.some.inj hr]
    rw [getField_updateTail_ne _ _ _ _ (by decide) (by decide),
      getField_append, getField_singleton, if_pos rfl]
    rfl

/-- C1 witness: the amended statement instantiated — a concrete add, a
merged update of only `quantity`, and a safe two-operation sequence. -/
theorem saleDerivedConsistency_witness :
    getField [("product", Value.str "Tomatoes"), ("quantity", Value.num 2),
        ("pricePerUnit", Value.num 3), ("total", Value.num 6),
        ("createdAt", Value.str "t0"), ("updatedAt", Value.str "t0"),
        ("id", Value.num 1)] "total"
      = some (jsMul (getField saleItem "quantity")
                    (getField saleItem "pricePerUnit")) ∧
    salesConsistentB (runSaleOps DB.empty
      [.addOp "t0" saleItem, .updOp "t1" (.num 1) [("quantity", .num 5)]])
      = true := by
  constructor
  · exact saleDerivedConsistency.1 "t0" DB.empty saleItem
      (runSaleOp DB.empty (.addOp "t0" saleItem)) (.num 1)
      [("product", Value.str "Tomatoes"), ("quantity", Value.num 2),
        ("pricePerUnit", Value.num 3), ("total", Value.num 6),
        ("createdAt", Value.str "t0"), ("updatedAt", Value.str "t0"),
        ("id", Value.num 1)]
      (by decide) (by decide)
  · exact saleDerivedConsistency.2.2 DB.empty
      [.addOp "t0" saleItem, .updOp "t1" (.num 1) [("quantity", .num 5)]]
      (by decide) (by decide)

end FarmTrack
